import Mathlib

/-!
Verification development for the collab-code presence relay
(`src/main.rs`). The data model, the per-session state machine of
`handle_connection`, and the listener/hub control decisions are embedded
shallowly; machine maps (`HashMap<String, User>`) are modelled as
association lists with first-match lookup and in-place replacement, which
matches the lookup/insert/remove semantics of the source's map since all
maps are built from empty through these operations.
-/

set_option autoImplicit false

namespace CollabCode

/-- `struct User` from src/main.rs: identity record supplied by `Register`. -/
structure User where
  user_id : String
  name : String
  avatar : String
  current_file : Option String
deriving DecidableEq, Repr

/-- `struct FileActivity` from src/main.rs: the point event for a focus change. -/
structure FileActivity where
  user_id : String
  file_path : String
  repo_id : String
deriving DecidableEq, Repr

/-- `enum ClientMessage` from src/main.rs (inbound, tagged variant). -/
inductive ClientMessage where
  | Register (user : User)
  | FileFocus (file_path : String) (repo_id : String)
deriving DecidableEq, Repr

/-- `enum ServerMessage` from src/main.rs (outbound, tagged variant). The
`HashMap<String, User>` payload of `UserUpdate` is modelled as an
association list. -/
inductive ServerMessage where
  | UserUpdate (users : List (String × User))
  | FileActivityUpdate (activity : FileActivity)
deriving DecidableEq, Repr

/-- Model of `HashMap::insert(k, v)`: replace the value under an existing
key in place, otherwise append the new entry. -/
def upsert : List (String × User) → String → User → List (String × User)
  | [], k, v => [(k, v)]
  | (k', v') :: rest, k, v =>
      if k' = k then (k, v) :: rest else (k', v') :: upsert rest k v

/-- Model of `HashMap::remove(k)`: drop every entry under `k` (maps built
from empty have at most one). -/
def removeKey : List (String × User) → String → List (String × User)
  | [], _ => []
  | (k', v') :: rest, k =>
      if k' = k then removeKey rest k else (k', v') :: removeKey rest k

/-- Model of the `FileFocus` registry mutation in `handle_connection`:
`if let Some(user) = users.get_mut(user_id) { user.current_file = Some(file_path) }`.
Only the `current_file` field of the entry under `k` (when present) changes. -/
def updateFocus : List (String × User) → String → String → List (String × User)
  | [], _, _ => []
  | (k', v') :: rest, k, fp =>
      if k' = k then (k, { v' with current_file := some fp }) :: rest
      else (k', v') :: updateFocus rest k fp

/-- Model of `HashMap::get(k)`: first-match association lookup. -/
def lookupKey : List (String × User) → String → Option User
  | [], _ => none
  | (k', v') :: rest, k => if k' = k then some v' else lookupKey rest k

theorem lookupKey_upsert_self (m : List (String × User)) (k : String) (v : User) :
    lookupKey (upsert m k v) k = some v := by
  induction m with
  | nil => simp [upsert, lookupKey]
  | cons hd tl ih =>
      obtain ⟨k', v'⟩ := hd
      by_cases h : k' = k
      · simp [upsert, h, lookupKey]
      · simp [upsert, h, lookupKey, ih]

theorem lookupKey_upsert_ne (m : List (String × User)) (k k' : String) (v : User)
    (h : k' ≠ k) : lookupKey (upsert m k v) k' = lookupKey m k' := by
  induction m with
  | nil => simp [upsert, lookupKey, Ne.symm h]
  | cons hd tl ih =>
      obtain ⟨a, b⟩ := hd
      by_cases ha : a = k
      · subst ha
        simp [upsert, lookupKey, Ne.symm h]
      · simp [upsert, ha, lookupKey, ih]

theorem lookupKey_removeKey_self (m : List (String × User)) (k : String) :
    lookupKey (removeKey m k) k = none := by
  induction m with
  | nil => simp [removeKey, lookupKey]
  | cons hd tl ih =>
      obtain ⟨a, b⟩ := hd
      by_cases ha : a = k
      · simp [removeKey, ha, ih]
      · simp [removeKey, ha, lookupKey, ih]

theorem lookupKey_updateFocus (m : List (String × User)) (k k' fp : String) :
    lookupKey (updateFocus m k fp) k' =
      if k' = k then (lookupKey m k').map (fun u => { u with current_file := some fp })
      else lookupKey m k' := by
  induction m with
  | nil => simp [updateFocus, lookupKey]
  | cons hd tl ih =>
      obtain ⟨a, b⟩ := hd
      by_cases ha : a = k
      · subst ha
        by_cases hk : k' = a
        · subst hk
          simp [updateFocus, lookupKey]
        · simp [updateFocus, lookupKey, hk, Ne.symm hk]
      · by_cases hk : k' = k
        · subst hk
          simp [updateFocus, ha, lookupKey, Ne.symm ha, ih]
        · simp [updateFocus, ha, lookupKey, hk, ih]

theorem updateFocus_absent (m : List (String × User)) (k fp : String)
    (h : lookupKey m k = none) : updateFocus m k fp = m := by
  induction m with
  | nil => simp [updateFocus]
  | cons hd tl ih =>
      obtain ⟨a, b⟩ := hd
      by_cases ha : a = k
      · subst ha
        simp [lookupKey] at h
      · simp [lookupKey, ha] at h
        simp [updateFocus, ha, ih h]

theorem keys_updateFocus (m : List (String × User)) (k fp : String) :
    (updateFocus m k fp).map Prod.fst = m.map Prod.fst := by
  induction m with
  | nil => simp [updateFocus]
  | cons hd tl ih =>
      obtain ⟨a, b⟩ := hd
      by_cases ha : a = k
      · simp [updateFocus, ha]
      · simp [updateFocus, ha, ih]

theorem mem_keys_upsert (m : List (String × User)) (k k' : String) (v : User) :
    k' ∈ (upsert m k v).map Prod.fst ↔ k' = k ∨ k' ∈ m.map Prod.fst := by
  induction m with
  | nil => simp [upsert]
  | cons hd tl ih =>
      obtain ⟨a, b⟩ := hd
      by_cases ha : a = k
      · subst ha
        simp [upsert]
      · simp [upsert, ha, ih]
        tauto

theorem mem_keys_removeKey (m : List (String × User)) (k k' : String) :
    k' ∈ (removeKey m k).map Prod.fst ↔ k' ∈ m.map Prod.fst ∧ k' ≠ k := by
  induction m with
  | nil => simp [removeKey]
  | cons hd tl ih =>
      obtain ⟨a, b⟩ := hd
      by_cases ha : a = k
      · subst ha
        simp [removeKey, ih]
        tauto
      · simp [removeKey, ha, ih]
        constructor
        · rintro (h | h)
          · exact ⟨Or.inl h, h ▸ ha⟩
          · exact ⟨Or.inr h.1, h.2⟩
        · rintro ⟨h | h, hne⟩
          · exact Or.inl h
          · exact Or.inr ⟨h, hne⟩

/-- Per-session state of `handle_connection`: the shared registry
(`state.active_users`) together with the session-local `curr_user_id`. -/
structure SessionState where
  registry : List (String × User)
  curr_user_id : Option String
deriving DecidableEq, Repr

/-- The inbound match of `handle_connection` on one decoded `ClientMessage`
(lines 69-103 of src/main.rs): returns the new state and the messages sent
through `tx` in order.

* `Register(user)`: sets `curr_user_id`, inserts the user under
  `user.user_id`, then sends a `UserUpdate` with a clone of the whole map.
* `FileFocus`: only when `curr_user_id` is set; mutates `current_file` of
  the entry under the bound id when present, then unconditionally sends a
  `FileActivityUpdate`. -/
def processClientMessage (st : SessionState) : ClientMessage →
    SessionState × List ServerMessage
  | .Register user =>
      let registry := upsert st.registry user.user_id user
      (⟨registry, some user.user_id⟩, [ServerMessage.UserUpdate registry])
  | .FileFocus file_path repo_id =>
      match st.curr_user_id with
      | some uid =>
          let registry := updateFocus st.registry uid file_path
          (⟨registry, some uid⟩,
           [ServerMessage.FileActivityUpdate ⟨uid, file_path, repo_id⟩])
      | none => (st, [])

/-- One item delivered by `ws_recv.next()` in the inbound loop, as the code
discriminates it: a text frame that parses as a `ClientMessage`, a text
frame `serde_json::from_str` rejects, a non-text frame, or `Err(_)`. -/
inductive InFrame where
  | textOk (msg : ClientMessage)
  | textBad
  | nonText
  | ioError
deriving DecidableEq, Repr

/-- One iteration of the inbound `while let Some(res) = ws_recv.next()`
loop: resulting state, messages sent, and whether the loop continues.
Parse failures and non-text frames fall through silently; `Err(_)` breaks. -/
def processFrame (st : SessionState) : InFrame →
    SessionState × List ServerMessage × Bool
  | .textOk msg =>
      let (st', outs) := processClientMessage st msg
      (st', outs, true)
  | .textBad => (st, [], true)
  | .nonText => (st, [], true)
  | .ioError => (st, [], false)

/-- The inbound loop over a queue of frames: processes frames in order,
stopping at the first transport error, and collects every sent message. -/
def runFrames (st : SessionState) : List InFrame → SessionState × List ServerMessage
  | [] => (st, [])
  | f :: fs =>
      let (st', outs, cont) := processFrame st f
      if cont then
        let (st'', outs') := runFrames st' fs
        (st'', outs ++ outs')
      else (st', outs)

/-- The cleanup after the inbound loop exits (lines 111-119 of src/main.rs):
if a `curr_user_id` was bound, remove it from the map and send one
`UserUpdate` with a snapshot taken after the removal; otherwise nothing. -/
def sessionCleanup (st : SessionState) : SessionState × List ServerMessage :=
  match st.curr_user_id with
  | some uid =>
      let registry := removeKey st.registry uid
      (⟨registry, some uid⟩, [ServerMessage.UserUpdate registry])
  | none => (st, [])

/-- A whole session from `handle_connection`: a fresh session has no bound
identity; it runs the inbound loop over its frames and then the cleanup. -/
def runSession (registry : List (String × User)) (frames : List InFrame) :
    SessionState × List ServerMessage :=
  let (st, outs) := runFrames ⟨registry, none⟩ frames
  let (st', outs') := sessionCleanup st
  (st', outs ++ outs')

theorem curr_user_id_stays_none (st : SessionState) (frames : List InFrame)
    (hst : st.curr_user_id = none)
    (hreg : ∀ u, InFrame.textOk (ClientMessage.Register u) ∉ frames) :
    (runFrames st frames).1.curr_user_id = none ∧
      (runFrames st frames).1.registry = st.registry := by
  induction frames generalizing st with
  | nil => exact ⟨hst, rfl⟩
  | cons f fs ih =>
      have hreg' : ∀ u, InFrame.textOk (ClientMessage.Register u) ∉ fs := by
        intro u hu
        exact hreg u (List.mem_cons_of_mem _ hu)
      cases f with
      | textOk msg =>
          cases msg with
          | Register user =>
              exact absurd (List.mem_cons_self _ _) (hreg user)
          | FileFocus fp rid =>
              have : processClientMessage st (ClientMessage.FileFocus fp rid) = (st, []) := by
                simp [processClientMessage, hst]
              simp only [runFrames, processFrame, this]
              exact ih st hst hreg'
      | textBad => simpa only [runFrames, processFrame] using ih st hst hreg'
      | nonText => simpa only [runFrames, processFrame] using ih st hst hreg'
      | ioError => exact ⟨hst, rfl⟩

/-- Outcome of `accept_async(stream).await` for one accepted TCP
connection: the websocket upgrade handshake succeeds or fails. -/
inductive HandshakeResult where
  | ok
  | failed
deriving DecidableEq, Repr

/-- What can happen in one iteration of `main`'s
`while let Ok((stream, _)) = listener.accept().await` loop. -/
inductive AcceptStep where
  | tcpAcceptErr
  | handshake (r : HandshakeResult)
deriving DecidableEq, Repr

/-- Outcome of one accept-loop iteration for the whole loop. -/
inductive LoopOutcome where
  | spawnedSessionAndContinued
  | exitedLoop
  | panicked
deriving DecidableEq, Repr

/-- One iteration of `main`'s accept loop (lines 142-151 of src/main.rs):
a TCP accept error ends the `while let Ok` loop; a successful handshake
spawns `handle_connection` and continues; a failed handshake hits
`.expect("Failed to accept a websocket")`, which panics the main task. -/
def acceptIteration : AcceptStep → LoopOutcome
  | .tcpAcceptErr => .exitedLoop
  | .handshake .ok => .spawnedSessionAndContinued
  | .handshake .failed => .panicked

/-- Result of `rx.recv().await` on a `tokio::sync::broadcast` receiver:
a message, `Err(RecvError::Lagged(n))` after the subscriber fell behind by
more than the capacity (a later `recv` would resume from the oldest
retained message), or `Err(RecvError::Closed)`. -/
inductive RecvResult where
  | ok (msg : ServerMessage)
  | lagged (n : Nat)
  | closed
deriving DecidableEq, Repr

/-- Whether the `send_task` loop `while let Ok(msg) = rx.recv().await`
(lines 55-62 of src/main.rs) performs another iteration after this recv
result: any `Err`, including `Lagged`, exits the loop. -/
def sendLoopContinues : RecvResult → Bool
  | .ok _ => true
  | .lagged _ => false
  | .closed => false

/-- An atomic step of the whole server, for interleaving several
`handle_connection` tasks over the shared `active_users` map. Sessions are
told apart by an abstract id `sid` (the spawned task); each step is one
critical section of the code. -/
inductive Op where
  | connect (sid : Nat)
  | register (sid : Nat) (user : User)
  | fileFocus (sid : Nat) (file_path : String) (repo_id : String)
  | disconnect (sid : Nat)
deriving DecidableEq, Repr

/-- Global state: the shared registry plus, for each live session, its
local `curr_user_id`. -/
structure SysState where
  registry : List (String × User)
  sessions : List (Nat × Option String)
deriving DecidableEq, Repr

/-- First-match lookup of a live session's `curr_user_id` by session id. -/
def lookupSession : List (Nat × Option String) → Nat → Option (Option String)
  | [], _ => none
  | (s, c) :: rest, sid => if s = sid then some c else lookupSession rest sid

/-- Overwrite the `curr_user_id` of session `sid` (the effect of
`curr_user_id = Some(user.user_id)` inside that session's task). -/
def setCurr : List (Nat × Option String) → Nat → String → List (Nat × Option String)
  | [], _, _ => []
  | (s, c) :: rest, sid, uid =>
      if s = sid then (s, some uid) :: rest else (s, c) :: setCurr rest sid uid

/-- Drop session `sid` from the live-session list (its task returned). -/
def eraseSession : List (Nat × Option String) → Nat → List (Nat × Option String)
  | [], _ => []
  | (s, c) :: rest, sid =>
      if s = sid then eraseSession rest sid else (s, c) :: eraseSession rest sid

/-- One interleaved step. A step by a session id that is not live is a
no-op (no such task exists to take it); `connect` of an already-live id is
a no-op (spawned tasks are distinct). The live-session effects are those
of `handle_connection`: `register` binds the id and upserts, `fileFocus`
mutates `current_file` only when registered, `disconnect` removes the
bound entry (if any) and ends the session. -/
def applyOp (st : SysState) : Op → SysState
  | .connect sid =>
      match lookupSession st.sessions sid with
      | some _ => st
      | none => ⟨st.registry, st.sessions ++ [(sid, none)]⟩
  | .register sid user =>
      match lookupSession st.sessions sid with
      | some _ =>
          ⟨upsert st.registry user.user_id user, setCurr st.sessions sid user.user_id⟩
      | none => st
  | .fileFocus sid file_path _ =>
      match lookupSession st.sessions sid with
      | some (some uid) => ⟨updateFocus st.registry uid file_path, st.sessions⟩
      | some none => st
      | none => st
  | .disconnect sid =>
      match lookupSession st.sessions sid with
      | some (some uid) => ⟨removeKey st.registry uid, eraseSession st.sessions sid⟩
      | some none => ⟨st.registry, eraseSession st.sessions sid⟩
      | none => st

/-- Run an interleaved trace from the empty server state. -/
def runOps (ops : List Op) : SysState := ops.foldl applyOp ⟨[], []⟩

theorem lookupSession_eq_none (l : List (Nat × Option String)) (sid : Nat) :
    lookupSession l sid = none ↔ sid ∉ l.map Prod.fst := by
  induction l with
  | nil => simp [lookupSession]
  | cons hd tl ih =>
      obtain ⟨s, c⟩ := hd
      by_cases h : s = sid
      · subst h
        simp [lookupSession]
      · simp [lookupSession, h, Ne.symm h, ih]

theorem mem_of_lookupSession (l : List (Nat × Option String)) (sid : Nat)
    (c : Option String) (h : lookupSession l sid = some c) : (sid, c) ∈ l := by
  induction l with
  | nil => simp [lookupSession] at h
  | cons hd tl ih =>
      obtain ⟨s, c'⟩ := hd
      by_cases hs : s = sid
      · subst hs
        simp [lookupSession] at h
        subst h
        exact List.mem_cons_self _ _
      · simp [lookupSession, hs] at h
        exact List.mem_cons_of_mem _ (ih h)

theorem lookupSession_of_mem (l : List (Nat × Option String)) (sid : Nat)
    (c : Option String) (hmem : (sid, c) ∈ l) (hnd : (l.map Prod.fst).Nodup) :
    lookupSession l sid = some c := by
  induction l with
  | nil => simp at hmem
  | cons hd tl ih =>
      obtain ⟨s, c'⟩ := hd
      simp only [List.map_cons, List.nodup_cons] at hnd
      rcases List.mem_cons.mp hmem with heq | htl
      · obtain ⟨h1, h2⟩ := Prod.mk.injEq .. ▸ heq
        simp [lookupSession, h1.symm, h2]
      · have hs : s ≠ sid := by
          intro hss
          exact hnd.1 (hss ▸ List.mem_map_of_mem Prod.fst htl)
        simp [lookupSession, hs, ih htl hnd.2]

theorem map_fst_setCurr (l : List (Nat × Option String)) (sid : Nat) (uid : String) :
    (setCurr l sid uid).map Prod.fst = l.map Prod.fst := by
  induction l with
  | nil => simp [setCurr]
  | cons hd tl ih =>
      obtain ⟨s, c⟩ := hd
      by_cases h : s = sid
      · simp [setCurr, h]
      · simp [setCurr, h, ih]

theorem mem_setCurr_elim (l : List (Nat × Option String)) (sid : Nat) (uid : String)
    (x : Nat × Option String) (hx : x ∈ setCurr l sid uid) :
    x ∈ l ∨ x = (sid, some uid) := by
  induction l with
  | nil => simp [setCurr] at hx
  | cons hd tl ih =>
      obtain ⟨s, c⟩ := hd
      by_cases h : s = sid
      · subst h
        simp only [setCurr, if_pos rfl] at hx
        rcases List.mem_cons.mp hx with heq | htl
        · exact Or.inr heq
        · exact Or.inl (List.mem_cons_of_mem _ htl)
      · simp only [setCurr, if_neg h] at hx
        rcases List.mem_cons.mp hx with heq | htl
        · exact Or.inl (heq ▸ List.mem_cons_self _ _)
        · rcases ih htl with hl | hr
          · exact Or.inl (List.mem_cons_of_mem _ hl)
          · exact Or.inr hr

theorem mem_setCurr_self (l : List (Nat × Option String)) (sid : Nat) (uid : String)
    (h : sid ∈ l.map Prod.fst) : (sid, some uid) ∈ setCurr l sid uid := by
  induction l with
  | nil => simp at h
  | cons hd tl ih =>
      obtain ⟨s, c⟩ := hd
      by_cases hs : s = sid
      · subst hs
        simp [setCurr]
      · simp only [List.map_cons, List.mem_cons] at h
        rcases h with h | h
        · exact absurd h.symm hs
        · simp only [setCurr, if_neg hs]
          exact List.mem_cons_of_mem _ (ih h)

theorem mem_setCurr_of_ne (l : List (Nat × Option String)) (sid s : Nat)
    (uid : String) (c : Option String) (hne : s ≠ sid) :
    (s, c) ∈ setCurr l sid uid ↔ (s, c) ∈ l := by
  induction l with
  | nil => simp [setCurr]
  | cons hd tl ih =>
      obtain ⟨a, b⟩ := hd
      by_cases ha : a = sid
      · subst ha
        simp [setCurr, hne]
      · simp [setCurr, ha, ih]

theorem mem_eraseSession (l : List (Nat × Option String)) (sid : Nat)
    (xs : Nat) (xc : Option String) :
    (xs, xc) ∈ eraseSession l sid ↔ (xs, xc) ∈ l ∧ xs ≠ sid := by
  induction l with
  | nil => simp [eraseSession]
  | cons hd tl ih =>
      obtain ⟨s, c⟩ := hd
      by_cases h : s = sid
      · subst h
        have he : eraseSession ((s, c) :: tl) s = eraseSession tl s := by
          simp [eraseSession]
        rw [he, ih]
        simp only [List.mem_cons, Prod.mk.injEq]
        constructor
        · rintro ⟨htl, hne⟩
          exact ⟨Or.inr htl, hne⟩
        · rintro ⟨⟨h1, _⟩ | htl, hne⟩
          · exact absurd h1 hne
          · exact ⟨htl, hne⟩
      · simp only [eraseSession, if_neg h, List.mem_cons, ih, Prod.mk.injEq]
        constructor
        · rintro (⟨h1, h2⟩ | ⟨htl, hne⟩)
          · subst h1
            exact ⟨Or.inl ⟨rfl, h2⟩, h⟩
          · exact ⟨Or.inr htl, hne⟩
        · rintro ⟨⟨h1, h2⟩ | htl, hne⟩
          · exact Or.inl ⟨h1, h2⟩
          · exact Or.inr ⟨htl, hne⟩

theorem map_fst_eraseSession_sublist (l : List (Nat × Option String)) (sid : Nat) :
    List.Sublist ((eraseSession l sid).map Prod.fst) (l.map Prod.fst) := by
  induction l with
  | nil => simp [eraseSession]
  | cons hd tl ih =>
      obtain ⟨s, c⟩ := hd
      by_cases h : s = sid
      · simp only [eraseSession, if_pos h, List.map_cons]
        exact List.Sublist.cons _ ih
      · simp only [eraseSession, if_neg h, List.map_cons]
        exact List.Sublist.cons₂ _ ih

/-- Inductive invariant tying the shared registry to the live sessions,
for traces in which session `sid` only ever registers as `ident sid`, with
`ident` injective: the registry keys are exactly the bound identities of
the live registered sessions. -/
structure SysInv (ident : Nat → String) (st : SysState) : Prop where
  sidsNodup : (st.sessions.map Prod.fst).Nodup
  currIdent : ∀ sid uid, (sid, some uid) ∈ st.sessions → uid = ident sid
  keysIff : ∀ k, k ∈ st.registry.map Prod.fst ↔ ∃ sid, (sid, some k) ∈ st.sessions

theorem applyOp_sysInv (ident : Nat → String)
    (hinj : ∀ a b : Nat, ident a = ident b → a = b)
    (st : SysState) (op : Op)
    (hop : ∀ sid u, op = Op.register sid u → u.user_id = ident sid)
    (inv : SysInv ident st) : SysInv ident (applyOp st op) := by
  obtain ⟨hnd, hci, hki⟩ := inv
  cases op with
  | connect sid =>
      cases hls : lookupSession st.sessions sid with
      | some c => simpa only [applyOp, hls] using SysInv.mk hnd hci hki
      | none =>
          have hsid : sid ∉ st.sessions.map Prod.fst := (lookupSession_eq_none _ _).mp hls
          refine ⟨?_, ?_, ?_⟩ <;> simp only [applyOp, hls]
          · simp [List.nodup_append, hnd, hsid]
          · intro s u hmem
            rcases List.mem_append.mp hmem with hmem | hmem
            · exact hci s u hmem
            · simp at hmem
          · intro k
            rw [hki k]
            constructor
            · rintro ⟨s, hs⟩
              exact ⟨s, List.mem_append_left _ hs⟩
            · rintro ⟨s, hs⟩
              rcases List.mem_append.mp hs with hs | hs
              · exact ⟨s, hs⟩
              · simp at hs
  | register sid user =>
      have hu : user.user_id = ident sid := hop sid user rfl
      cases hls : lookupSession st.sessions sid with
      | none => simpa only [applyOp, hls] using SysInv.mk hnd hci hki
      | some c =>
          have hsid : sid ∈ st.sessions.map Prod.fst :=
            List.mem_map_of_mem Prod.fst (mem_of_lookupSession _ _ _ hls)
          refine ⟨?_, ?_, ?_⟩ <;> simp only [applyOp, hls]
          · rw [map_fst_setCurr]
            exact hnd
          · intro s u hmem
            rcases mem_setCurr_elim _ _ _ _ hmem with hmem | hmem
            · exact hci s u hmem
            · injection hmem with h1 h2
              subst h1
              rw [Option.some.inj h2, hu]
          · intro k
            rw [mem_keys_upsert, hki k]
            constructor
            · rintro (hk | ⟨s, hs⟩)
              · subst hk
                exact ⟨sid, mem_setCurr_self _ _ _ hsid⟩
              · by_cases hss : s = sid
                · subst hss
                  have hk : k = user.user_id := by
                    rw [hci s k hs, hu]
                  rw [hk]
                  exact ⟨s, mem_setCurr_self _ _ _ hsid⟩
                · exact ⟨s, (mem_setCurr_of_ne _ _ _ _ _ hss).mpr hs⟩
            · rintro ⟨s, hs⟩
              rcases mem_setCurr_elim _ _ _ _ hs with hs | hs
              · exact Or.inr ⟨s, hs⟩
              · left
                injection hs with h1 h2
                exact Option.some.inj h2
  | fileFocus sid file_path repo_id =>
      cases hls : lookupSession st.sessions sid with
      | none => simpa only [applyOp, hls] using SysInv.mk hnd hci hki
      | some c =>
          cases c with
          | none => simpa only [applyOp, hls] using SysInv.mk hnd hci hki
          | some uid =>
              refine ⟨?_, ?_, ?_⟩ <;> simp only [applyOp, hls]
              · exact hnd
              · exact hci
              · intro k
                rw [keys_updateFocus]
                exact hki k
  | disconnect sid =>
      cases hls : lookupSession st.sessions sid with
      | none => simpa only [applyOp, hls] using SysInv.mk hnd hci hki
      | some c =>
          cases c with
          | none =>
              refine ⟨?_, ?_, ?_⟩ <;> simp only [applyOp, hls]
              · exact List.Nodup.sublist (map_fst_eraseSession_sublist _ _) hnd
              · intro s u hmem
                exact hci s u ((mem_eraseSession _ _ _ _).mp hmem).1
              · intro k
                rw [hki k]
                constructor
                · rintro ⟨s, hs⟩
                  refine ⟨s, (mem_eraseSession _ _ _ _).mpr ⟨hs, ?_⟩⟩
                  intro hss
                  subst hss
                  have hlk := lookupSession_of_mem _ _ _ hs hnd
                  rw [hls] at hlk
                  simp at hlk
                · rintro ⟨s, hs⟩
                  exact ⟨s, ((mem_eraseSession _ _ _ _).mp hs).1⟩
          | some uid =>
              have hmem : (sid, some uid) ∈ st.sessions := mem_of_lookupSession _ _ _ hls
              have huid : uid = ident sid := hci sid uid hmem
              refine ⟨?_, ?_, ?_⟩ <;> simp only [applyOp, hls]
              · exact List.Nodup.sublist (map_fst_eraseSession_sublist _ _) hnd
              · intro s u hm
                exact hci s u ((mem_eraseSession _ _ _ _).mp hm).1
              · intro k
                rw [mem_keys_removeKey, hki k]
                constructor
                · rintro ⟨⟨s, hs⟩, hk⟩
                  refine ⟨s, (mem_eraseSession _ _ _ _).mpr ⟨hs, ?_⟩⟩
                  intro hss
                  subst hss
                  apply hk
                  rw [hci s k hs, huid]
                · rintro ⟨s, hs⟩
                  obtain ⟨hs', hne⟩ := (mem_eraseSession _ _ _ _).mp hs
                  refine ⟨⟨s, hs'⟩, ?_⟩
                  intro hk
                  subst hk
                  apply hne
                  apply hinj
                  rw [← hci s k hs', ← huid]

theorem sysInv_initial (ident : Nat → String) : SysInv ident ⟨[], []⟩ := by
  refine ⟨?_, ?_, ?_⟩ <;> simp

theorem foldl_sysInv (ident : Nat → String)
    (hinj : ∀ a b : Nat, ident a = ident b → a = b) :
    ∀ (ops : List Op) (st : SysState),
      (∀ sid u, Op.register sid u ∈ ops → u.user_id = ident sid) →
      SysInv ident st → SysInv ident (ops.foldl applyOp st)
  | [], _, _, inv => inv
  | op :: ops, st, hops, inv => by
      have hstep : SysInv ident (applyOp st op) :=
        applyOp_sysInv ident hinj st op
          (fun sid u he => hops sid u (by rw [← he]; exact List.mem_cons_self _ _)) inv
      exact foldl_sysInv ident hinj ops (applyOp st op)
        (fun sid u hm => hops sid u (List.mem_cons_of_mem _ hm)) hstep

/-- End state of the inbound loop of one session that started with the
given shared registry and no bound identity. -/
def sessionEndState (registry : List (String × User)) (frames : List InFrame) :
    SessionState :=
  (runFrames ⟨registry, none⟩ frames).1

/-- State and publications of the post-loop cleanup of that session. -/
def cleanupResult (registry : List (String × User)) (frames : List InFrame) :
    SessionState × List ServerMessage :=
  sessionCleanup (sessionEndState registry frames)

/-- Concrete participants and traces used by witnesses and counterexamples. -/
def userU1 : User := ⟨"u1", "Alice", "a.png", none⟩

def userU2 : User := ⟨"u2", "Alice", "a.png", none⟩

def opsCE : List Op :=
  [Op.connect 0, Op.register 0 userU1, Op.register 0 userU2, Op.disconnect 0]

/-- Witness identity assignment: session `n` owns the identifier made of
`n` letters `a`; injective by length. -/
def identW : Nat → String := fun n => String.mk (List.replicate n 'a')

theorem identW_injective : ∀ a b : Nat, identW a = identW b → a = b := by
  intro a b h
  have hlen := congrArg (fun s => s.data.length) h
  simpa [identW] using hlen

def opsW : List Op := [Op.connect 1, Op.register 1 ⟨"a", "Alice", "a.png", none⟩]

/-- Claim C1: the accept loop of `main` evaluated at a failed websocket
handshake. The code hits `.expect("Failed to accept a websocket")`, which
panics the main task, so the Listener does not continue accepting —
contradicting the claim that a handshake failure is isolated to that
connection; a successful handshake spawns a session and continues. -/
theorem C1_handshake_failure_panics_accept_loop :
    acceptIteration (AcceptStep.handshake HandshakeResult.failed) =
        LoopOutcome.panicked ∧
      acceptIteration (AcceptStep.handshake HandshakeResult.ok) =
        LoopOutcome.spawnedSessionAndContinued :=
  ⟨rfl, rfl⟩

/-- Claim C2: the outbound `send_task` loop evaluated at a lagged
subscription. `while let Ok(msg) = rx.recv().await` exits on
`Err(RecvError::Lagged(_))` exactly as on `Err(Closed)`, so the outbound
loop terminates instead of skipping the missed messages and resuming —
contradicting the claim; only an `Ok` message keeps the loop running. -/
theorem C2_outbound_loop_exits_on_lag :
    sendLoopContinues (RecvResult.lagged 1) = false ∧
      sendLoopContinues RecvResult.closed = false ∧
      sendLoopContinues (RecvResult.ok (ServerMessage.UserUpdate [])) = true :=
  ⟨rfl, rfl, rfl⟩

/-- Claim C3, counterexample: one session connects, registers as "u1",
re-registers as "u2", and disconnects. The disconnect cleanup removes only
the last bound identity, so the final registry still holds "u1" although
no session that registered it is still connected — the registry is not the
set of identifiers of registered, undisconnected sessions. -/
theorem C3_counterexample :
    (runOps opsCE).sessions = [] ∧
      (runOps opsCE).registry.map Prod.fst = ["u1"] := by
  constructor <;> decide

/-- Claim C3 (amended): provided every session only ever registers under
its own fixed identifier (`ident sid`) and distinct sessions use distinct
identifiers, the final registry keys are exactly the identifiers of the
sessions that registered and have not yet disconnected. -/
theorem C3_registry_tracks_sessions (ops : List Op) (ident : Nat → String)
    (hinj : ∀ a b : Nat, ident a = ident b → a = b)
    (hops : ∀ sid u, Op.register sid u ∈ ops → u.user_id = ident sid)
    (k : String) :
    k ∈ (runOps ops).registry.map Prod.fst ↔
      ∃ sid, (sid, some k) ∈ (runOps ops).sessions :=
  (foldl_sysInv ident hinj ops ⟨[], []⟩ hops (sysInv_initial ident)).keysIff k

theorem C3_witness :
    ("a" ∈ (runOps opsW).registry.map Prod.fst ↔
      ∃ sid, (sid, some "a") ∈ (runOps opsW).sessions) := by
  refine C3_registry_tracks_sessions opsW identW identW_injective ?_ "a"
  intro sid u h
  simp only [opsW, List.mem_cons, List.not_mem_nil, or_false] at h
  rcases h with h | h
  · exact absurd h (by simp)
  · injection h with h1 h2
    subst h1
    subst h2
    decide

/-- Claim C4, counterexample: a session is registered with bound id "a",
but the registry no longer contains "a" (reachable: a second session
registered the same id and disconnected, removing the entry). The code
still publishes the FileActivityUpdate, although the claim says none may
be published when the bound identifier is absent. -/
theorem C4_counterexample :
    lookupKey (([] : List (String × User))) "a" = none ∧
      (processClientMessage ⟨[], some "a"⟩
          (ClientMessage.FileFocus "/src/lib.rs" "r1")).2 =
        [ServerMessage.FileActivityUpdate ⟨"a", "/src/lib.rs", "r1"⟩] :=
  ⟨rfl, rfl⟩

/-- Claim C4 (amended): a session with a bound identifier always publishes
exactly the FileActivityUpdate on FileFocus, whether or not the registry
contains an entry under the bound identifier; when the identifier is
absent the registry (and whole session state) is left unchanged, but the
publication still happens. -/
theorem C4_filefocus_always_publishes (st : SessionState)
    (uid file_path repo_id : String) (h : st.curr_user_id = some uid) :
    (processClientMessage st (ClientMessage.FileFocus file_path repo_id)).2 =
        [ServerMessage.FileActivityUpdate ⟨uid, file_path, repo_id⟩] ∧
      (lookupKey st.registry uid = none →
        (processClientMessage st (ClientMessage.FileFocus file_path repo_id)).1 = st) := by
  obtain ⟨registry, curr⟩ := st
  simp only [SessionState.mk.injEq] at *
  subst h
  constructor
  · simp [processClientMessage]
  · intro habs
    simp [processClientMessage, updateFocus_absent _ _ file_path habs]

theorem C4_witness :
    ((processClientMessage ⟨[], some "a"⟩ (ClientMessage.FileFocus "f" "r")).2 =
        [ServerMessage.FileActivityUpdate ⟨"a", "f", "r"⟩] ∧
      (processClientMessage ⟨[], some "a"⟩ (ClientMessage.FileFocus "f" "r")).1 =
        (⟨[], some "a"⟩ : SessionState)) :=
  ⟨(C4_filefocus_always_publishes ⟨[], some "a"⟩ "a" "f" "r" rfl).1,
   (C4_filefocus_always_publishes ⟨[], some "a"⟩ "a" "f" "r" rfl).2 rfl⟩

/-- Claim C5: when the inbound loop of a session ends, a session with a
bound identity removes exactly that entry (the registry afterwards has no
entry under it) and publishes exactly one UserUpdate whose snapshot is the
registry after the removal; a session whose frames contain no Register
leaves the registry as it was and publishes nothing on termination. -/
theorem C5_disconnect_cleanup (registry : List (String × User))
    (frames : List InFrame) :
    (∀ uid, (sessionEndState registry frames).curr_user_id = some uid →
        lookupKey (cleanupResult registry frames).1.registry uid = none ∧
          (cleanupResult registry frames).2 =
            [ServerMessage.UserUpdate (cleanupResult registry frames).1.registry]) ∧
      ((∀ u, InFrame.textOk (ClientMessage.Register u) ∉ frames) →
        (cleanupResult registry frames).1.registry = registry ∧
          (cleanupResult registry frames).2 = []) := by
  constructor
  · intro uid h
    constructor
    · simp [cleanupResult, sessionCleanup, h, lookupKey_removeKey_self]
    · simp [cleanupResult, sessionCleanup, h]
  · intro hreg
    obtain ⟨hc, hr⟩ := curr_user_id_stays_none ⟨registry, none⟩ frames rfl hreg
    constructor
    · simp [cleanupResult, sessionCleanup, sessionEndState, hc, hr]
    · simp [cleanupResult, sessionCleanup, sessionEndState, hc]

theorem C5_witness :
    (lookupKey (cleanupResult []
          [InFrame.textOk (ClientMessage.Register ⟨"a", "n", "v", none⟩)]).1.registry
        "a" = none ∧
      (cleanupResult [] [InFrame.textOk (ClientMessage.Register ⟨"a", "n", "v", none⟩)]).2 =
        [ServerMessage.UserUpdate (cleanupResult []
          [InFrame.textOk (ClientMessage.Register ⟨"a", "n", "v", none⟩)]).1.registry]) ∧
      ((cleanupResult [] [InFrame.textBad]).1.registry = ([] : List (String × User)) ∧
        (cleanupResult [] [InFrame.textBad]).2 = []) :=
  ⟨(C5_disconnect_cleanup [] _).1 "a" rfl,
   (C5_disconnect_cleanup [] _).2 (by intro u hu; simp at hu)⟩

/-- Claim C6: a FileFocus arriving while no Register has been processed
(no bound identity) has no effect at all: the session state, including the
registry, is unchanged, nothing is published, and the inbound loop keeps
running with the session still unregistered. -/
theorem C6_filefocus_before_register_ignored (st : SessionState)
    (file_path repo_id : String) (h : st.curr_user_id = none) :
    processFrame st (InFrame.textOk (ClientMessage.FileFocus file_path repo_id)) =
      (st, [], true) := by
  simp [processFrame, processClientMessage, h]

theorem C6_witness :
    processFrame ⟨[], none⟩ (InFrame.textOk (ClientMessage.FileFocus "f" "r")) =
      ((⟨[], none⟩ : SessionState), [], true) :=
  C6_filefocus_before_register_ignored ⟨[], none⟩ "f" "r" rfl

/-- Claim C7: processing Register(user) in any session state binds
`user.user_id` as the session identity, stores `user` under that key,
leaves every other registry entry unchanged (upsert), and publishes
exactly one UserUpdate carrying the full new registry snapshot; since the
prior state is arbitrary, re-registering (same or new key) behaves the
same way and re-publishes a snapshot. -/
theorem C7_register_upserts_binds_publishes (st : SessionState) (user : User) :
    (processClientMessage st (ClientMessage.Register user)).1.curr_user_id =
        some user.user_id ∧
      lookupKey (processClientMessage st (ClientMessage.Register user)).1.registry
          user.user_id = some user ∧
      (∀ k, k ≠ user.user_id →
        lookupKey (processClientMessage st (ClientMessage.Register user)).1.registry k =
          lookupKey st.registry k) ∧
      (processClientMessage st (ClientMessage.Register user)).2 =
        [ServerMessage.UserUpdate
          (processClientMessage st (ClientMessage.Register user)).1.registry] := by
  refine ⟨rfl, ?_, ?_, rfl⟩
  · simp [processClientMessage, lookupKey_upsert_self]
  · intro k hk
    simp [processClientMessage, lookupKey_upsert_ne st.registry user.user_id k user hk]

theorem C7_witness :
    (processClientMessage ⟨[], some "a"⟩
          (ClientMessage.Register ⟨"b", "Bob", "b.png", none⟩)).1.curr_user_id =
        some "b" ∧
      lookupKey (processClientMessage ⟨[], some "a"⟩
          (ClientMessage.Register ⟨"b", "Bob", "b.png", none⟩)).1.registry "b" =
        some ⟨"b", "Bob", "b.png", none⟩ ∧
      lookupKey (processClientMessage ⟨[], some "a"⟩
          (ClientMessage.Register ⟨"b", "Bob", "b.png", none⟩)).1.registry "a" =
        lookupKey [] "a" ∧
      (processClientMessage ⟨[], some "a"⟩
          (ClientMessage.Register ⟨"b", "Bob", "b.png", none⟩)).2 =
        [ServerMessage.UserUpdate (processClientMessage ⟨[], some "a"⟩
          (ClientMessage.Register ⟨"b", "Bob", "b.png", none⟩)).1.registry] :=
  ⟨(C7_register_upserts_binds_publishes ⟨[], some "a"⟩ ⟨"b", "Bob", "b.png", none⟩).1,
   (C7_register_upserts_binds_publishes ⟨[], some "a"⟩ ⟨"b", "Bob", "b.png", none⟩).2.1,
   (C7_register_upserts_binds_publishes ⟨[], some "a"⟩
      ⟨"b", "Bob", "b.png", none⟩).2.2.1 "a" (by decide),
   (C7_register_upserts_binds_publishes ⟨[], some "a"⟩ ⟨"b", "Bob", "b.png", none⟩).2.2.2⟩

/-- Claim C8: a FileFocus processed by a registered session never causes a
UserUpdate to be published (its only publication is the point event). -/
theorem C8_filefocus_publishes_no_userupdate (st : SessionState)
    (uid file_path repo_id : String) (h : st.curr_user_id = some uid) :
    ∀ users, ServerMessage.UserUpdate users ∉
      (processClientMessage st (ClientMessage.FileFocus file_path repo_id)).2 := by
  intro users
  simp [processClientMessage, h]

theorem C8_witness :
    ServerMessage.UserUpdate [] ∉
      (processClientMessage ⟨[], some "a"⟩ (ClientMessage.FileFocus "f" "r")).2 :=
  C8_filefocus_publishes_no_userupdate ⟨[], some "a"⟩ "a" "f" "r" rfl []

/-- Claim C9: a text frame that fails to decode is discarded without any
effect — the state (registry included) is unchanged, nothing is published,
the inbound loop keeps running — and the rest of the frame queue is
processed exactly as if the malformed frame had never arrived. -/
theorem C9_malformed_frame_discarded (st : SessionState) (frames : List InFrame) :
    processFrame st InFrame.textBad = (st, [], true) ∧
      runFrames st (InFrame.textBad :: frames) = runFrames st frames := by
  refine ⟨rfl, ?_⟩
  rcases hr : runFrames st frames with ⟨st', outs⟩
  simp [runFrames, processFrame, hr]

/-- Claim C10: frame condition of the registry mutations. Register only
changes the entry under `user.user_id`; FileFocus of a registered session
only sets `current_file` of the entry under the bound identifier (when
present), preserving its other fields and every other entry. -/
theorem C10_registry_frame_condition (st : SessionState) (user : User)
    (uid file_path repo_id k : String) :
    (k ≠ user.user_id →
      lookupKey (processClientMessage st (ClientMessage.Register user)).1.registry k =
        lookupKey st.registry k) ∧
      (st.curr_user_id = some uid →
        lookupKey (processClientMessage st
            (ClientMessage.FileFocus file_path repo_id)).1.registry k =
          if k = uid then
            (lookupKey st.registry k).map (fun u => { u with current_file := some file_path })
          else lookupKey st.registry k) := by
  constructor
  · intro hk
    simp [processClientMessage, lookupKey_upsert_ne st.registry user.user_id k user hk]
  · intro h
    simp [processClientMessage, h, lookupKey_updateFocus]

theorem C10_witness :
    (lookupKey (processClientMessage ⟨[("a", userU1)], some "a"⟩
          (ClientMessage.Register ⟨"b", "Bob", "b.png", none⟩)).1.registry "a" =
        lookupKey [("a", userU1)] "a") ∧
      (lookupKey (processClientMessage ⟨[("a", userU1)], some "a"⟩
          (ClientMessage.FileFocus "f" "r")).1.registry "a" =
        if "a" = "a" then
          (lookupKey [("a", userU1)] "a").map (fun u => { u with current_file := some "f" })
        else lookupKey [("a", userU1)] "a") :=
  ⟨(C10_registry_frame_condition ⟨[("a", userU1)], some "a"⟩
      ⟨"b", "Bob", "b.png", none⟩ "a" "f" "r" "a").1 (by decide),
   (C10_registry_frame_condition ⟨[("a", userU1)], some "a"⟩
      ⟨"b", "Bob", "b.png", none⟩ "a" "f" "r" "a").2 rfl⟩

end CollabCode
